import Mathlib

set_option autoImplicit false

/-!
Verification of the interaction-specification builder of this repository
(src/dsl/utils.ts, class `GraphQLInteraction`) against its specification.

The GraphQL builder of src/dsl/utils.ts is translated directly.  The pieces it
uses that are not part of the sources — the generic `Interaction` base class
(src/dsl/interaction.ts), the `regex` matcher constructor (src/dsl/matchers),
the external GraphQL grammar parser (`gql` of graphql-tag) and underscore's
`extend` — are modelled from the specification, as marked on each definition.
-/

namespace Pact

/-- Whitespace as the JavaScript regular-expression class of the source's
`query.replace` call reads it (src/dsl/utils.ts line 108): space, tab, line
feed, vertical tab, form feed, carriage return, and the Unicode space
separators JavaScript counts as whitespace. -/
def isWsChar (c : Char) : Bool :=
  c = ' ' || c = '\t' || c = '\n' || c = '\r' || c = '\x0b' || c = '\x0c' ||
  c = '\u00A0' || c = '\u1680' || ('\u2000' ≤ c && c ≤ '\u200A') ||
  c = '\u2028' || c = '\u2029' || c = '\u202F' || c = '\u205F' ||
  c = '\u3000' || c = '\uFEFF'

/-- Translation of the source expression `this.query.replace(/\s+/g, "\\s+")`
(src/dsl/utils.ts line 108): every maximal run of one-or-more whitespace
characters is replaced by the three characters backslash, s, plus; every other
character is kept unchanged.  The replacement is emitted at the last character
of each run, which makes the recursion structural. -/
def wsSubst : List Char → List Char
  | [] => []
  | c :: rest =>
    if isWsChar c then
      match rest with
      | [] => ['\\', 's', '+']
      | d :: _ =>
        if isWsChar d then wsSubst rest else '\\' :: 's' :: '+' :: wsSubst rest
    else c :: wsSubst rest

/-- The matcher pattern the GraphQL builder derives from a query string. -/
def gqlMatcherOf (q : String) : String := ⟨wsSubst q.data⟩

/-- Token of a derived pattern as the consuming matching engine reads it. -/
inductive PatTok where
  | wsClass : PatTok
  | lit : Char → PatTok
deriving Repr, DecidableEq

/-- Modelled from the spec (§4.1): how the consuming matching engine — out of
scope of this repository — reads a derived pattern string: a greedy
left-to-right scan turning each occurrence of backslash, s, plus into the
whitespace class and every other character into a literal token. -/
def patToks : List Char → List PatTok
  | [] => []
  | '\\' :: 's' :: '+' :: rest => .wsClass :: patToks rest
  | c :: rest => .lit c :: patToks rest

/-- Modelled from the spec (§4.1): full-match acceptance of an input by a
token pattern — a literal token consumes exactly its character, the whitespace
class consumes one or more whitespace characters, and the whole input must be
consumed. -/
def patAccepts : List PatTok → List Char → Bool
  | [], input => input.isEmpty
  | .lit _ :: _, [] => false
  | .lit c :: ts, d :: rest => c == d && patAccepts ts rest
  | .wsClass :: _, [] => false
  | .wsClass :: ts, d :: rest =>
    isWsChar d && (patAccepts ts rest || patAccepts (.wsClass :: ts) rest)

/-- A piece of a character list: a whitespace run or a single non-whitespace
character. -/
inductive Chunk where
  | ws : List Char → Chunk
  | lit : Char → Chunk
deriving Repr, DecidableEq

/-- The characters a chunk list stands for. -/
def flattenChunks : List Chunk → List Char
  | [] => []
  | .ws r :: cs => r ++ flattenChunks cs
  | .lit c :: cs => c :: flattenChunks cs

/-- The pattern characters the derivation produces for one chunk. -/
def chunkPat : Chunk → List Char
  | .ws _ => ['\\', 's', '+']
  | .lit c => [c]

/-- The pattern characters the derivation produces for a chunk list. -/
def flattenPat : List Chunk → List Char
  | [] => []
  | c :: cs => chunkPat c ++ flattenPat cs

/-- The pattern token a chunk is read back as. -/
def chunkTok : Chunk → PatTok
  | .ws _ => .wsClass
  | .lit c => .lit c

/-- True when the chunk list does not start with a whitespace run. -/
def notWsHead : List Chunk → Bool
  | .ws _ :: _ => false
  | _ => true

/-- Well-formed decomposition: whitespace runs are nonempty, consist of
whitespace only and are maximal (no two adjacent), and literal chunks hold
non-whitespace characters. -/
def wfChunks : List Chunk → Bool
  | [] => true
  | .lit c :: cs => !isWsChar c && wfChunks cs
  | .ws r :: cs => !r.isEmpty && r.all isWsChar && notWsHead cs && wfChunks cs

/-- The canonical decomposition of a character list into maximal whitespace
runs and single non-whitespace characters. -/
def chunksOf : List Char → List Chunk
  | [] => []
  | c :: rest =>
    if isWsChar c then
      match chunksOf rest with
      | .ws r :: cs => .ws (c :: r) :: cs
      | cs => .ws [c] :: cs
    else .lit c :: chunksOf rest

/-- Whitespace-replacement relation between two decompositions: same literal
characters in the same order, and wherever the first has a whitespace run the
second has some nonempty whitespace run (possibly a different one). -/
def chunkRel : List Chunk → List Chunk → Bool
  | [], [] => true
  | .lit c :: cs, .lit d :: ds => c == d && chunkRel cs ds
  | .ws _ :: cs, .ws r :: ds => !r.isEmpty && r.all isWsChar && chunkRel cs ds
  | _, _ => false

/-- Presence of the three-character sequence backslash, s, plus anywhere in a
character list — the sharp edge of spec §9: such a sequence inside the query
is conflated with the generated whitespace class. -/
def hasSlashSP : List Char → Bool
  | '\\' :: 's' :: '+' :: _ => true
  | _ :: rest => hasSlashSP rest
  | [] => false

/-- True when the character list does not start with a whitespace character. -/
def headNotWsChar : List Char → Bool
  | [] => true
  | d :: _ => !isWsChar d

/-- Modelled from the spec (§3, §4.1): the matcher descriptor — the canonical
example value paired with the matching pattern source. -/
structure MatcherResult where
  generate : String
  matcher : String
deriving Repr, DecidableEq

/-- Modelled from the spec (§4.1): the `regex` matcher constructor of
src/dsl/matchers (not part of the sources) — a pure, total constructor of the
descriptor, no validation. -/
def regex (m : MatcherResult) : MatcherResult := m

/-- Modelled from the spec (§9): a dynamically shaped, structurally compared
value — the payload of caller-supplied bodies and of GraphQL variables. -/
inductive Value where
  | null : Value
  | bool : Bool → Value
  | num : Int → Value
  | str : String → Value
  | arr : List Value → Value
  | obj : List (String × Value) → Value

/-- The request body the GraphQL finalizer constructs
(src/dsl/utils.ts lines 106-110). -/
structure GraphQLBody where
  operationName : Option String
  query : MatcherResult
  vars : List (String × Value)

/-- A request body: either the GraphQL-shaped body built by the finalizer or
an arbitrary caller-supplied value. -/
inductive ReqBody where
  | gql : GraphQLBody → ReqBody
  | raw : Value → ReqBody

/-- Modelled from the spec (§4.2): the request shape recorded by
`withRequest` — method, path, query, headers, body.  `none` models a property
that is absent from the JavaScript object. -/
structure RequestOpts where
  method : Option String := none
  path : Option String := none
  query : Option String := none
  headers : Option (List (String × String)) := none
  body : Option ReqBody := none

/-- Modelled from the spec (§4.2): the response shape recorded by
`willRespondWith` — status, headers, body. -/
structure ResponseOpts where
  status : Option Nat := none
  headers : Option (List (String × String)) := none
  body : Option Value := none

/-- Modelled from the spec (§3): the interaction record accumulated by the
generic builder (src/dsl/interaction.ts, not part of the sources). -/
structure InteractionState where
  description : Option String := none
  providerState : Option String := none
  request : Option RequestOpts := none
  response : Option ResponseOpts := none

/-- The GraphQL builder (src/dsl/utils.ts lines 25-28): the inherited generic
state plus the three GraphQL fields, with their initial values — operation
`null`, variables empty, query unset. -/
structure GraphQLInteraction where
  state : InteractionState := {}
  operation : Option String := none
  vars : List (String × Value) := []
  query : Option String := none

/-- A freshly constructed GraphQL builder. -/
def initGraphQL : GraphQLInteraction := {}

/-- Modelled from the spec (§4.2): `uponReceiving` records the human-readable
description, overwriting any previous value. -/
def uponReceiving (b : GraphQLInteraction) (d : String) : GraphQLInteraction :=
  { b with state := { b.state with description := some d } }

/-- Modelled from the spec (§4.2): `given` records the provider-state
precondition, overwriting any previous value, no constraints on the string. -/
def given (b : GraphQLInteraction) (s : String) : GraphQLInteraction :=
  { b with state := { b.state with providerState := some s } }

/-- Modelled from the spec (§4.2): `withRequest` records the request shape,
overwriting any previous value. -/
def withRequest (b : GraphQLInteraction) (r : RequestOpts) : GraphQLInteraction :=
  { b with state := { b.state with request := some r } }

/-- Modelled from the spec (§4.2): `willRespondWith` records the response
shape, overwriting any previous value. -/
def willRespondWith (b : GraphQLInteraction) (r : ResponseOpts) : GraphQLInteraction :=
  { b with state := { b.state with response := some r } }

/-- Modelled from underscore's `extend(destination, source)` as called at
src/dsl/utils.ts line 105 (the library is not part of the sources): a shallow
copy — every top-level property present on the source overwrites the
same-named property of the destination, properties absent from the source keep
the destination's value, and an absent source leaves the destination as is. -/
def extendReq (dst : RequestOpts) : Option RequestOpts → RequestOpts
  | none => dst
  | some s =>
    { method := s.method <|> dst.method
      path := s.path <|> dst.path
      query := s.query <|> dst.query
      headers := s.headers <|> dst.headers
      body := s.body <|> dst.body }

/-- Error message of src/dsl/utils.ts lines 79 and 99. -/
def missingQueryMsg : String := "You must provide a GraphQL query."

/-- Error message of src/dsl/utils.ts line 102. -/
def missingDescriptionMsg : String := "You must provide a description for the query."

/-- Error message of src/dsl/utils.ts line 38: it names the valid operation
set, the keys of the `GraphQLOperations` enumeration joined by a comma. -/
def invalidOperationMsg : String := "You must provide a valid HTTP method: query, mutation."

/-- Message head of src/dsl/utils.ts line 85, completed by the parser's own
failure message. -/
def invalidQueryMsgHead : String := "GraphQL Query is invalid: "

/-- Modelled from the spec (§6): the external GraphQL grammar parser `gql` of
the graphql-tag package (not part of the sources), `parse(string)` failing on
syntax errors, simplified to the syntactic checks exercised here: braces and
parentheses must be balanced (scanned with an explicit stack). -/
def gqlScan : List Char → List Char → Except String Unit
  | [], [] => .ok ()
  | _ :: _, [] => .error "Syntax Error: Expected Name, found <EOF>."
  | stack, c :: rest =>
    if c = '\x7b' || c = '(' then gqlScan (c :: stack) rest
    else if c = '\x7d' then
      match stack with
      | '\x7b' :: s => gqlScan s rest
      | _ => .error "Syntax Error: Unexpected closing brace."
    else if c = ')' then
      match stack with
      | '(' :: s => gqlScan s rest
      | _ => .error "Syntax Error: Unexpected closing parenthesis."
    else gqlScan stack rest

/-- Modelled from the spec (§6): the whole-document check of the external
parser — a document with no non-whitespace character is a syntax error, and
the brackets must balance. -/
def gqlParse (q : String) : Except String Unit :=
  if q.data.all isWsChar then .error "Syntax Error: Unexpected <EOF>."
  else gqlScan [] q.data

/-- Result of a builder method that can throw.  On an error the carried
builder is the state at the moment the exception is raised — translated from
the statement order of the source, where every `throw` happens before any
assignment. -/
abbrev GqlExcept (α : Type) := Except (String × GraphQLInteraction) α

/-- Translation of `withOperation` (src/dsl/utils.ts lines 36-44): a nil or
unrecognized operation is rejected before anything is stored; a valid one is
stored, overwriting any previous value.  `none` models `null`. -/
def withOperation (b : GraphQLInteraction) (op : Option String) :
    GqlExcept GraphQLInteraction :=
  match op with
  | none => .error (invalidOperationMsg, b)
  | some s =>
    if s = "query" || s = "mutation" then .ok { b with operation := some s }
    else .error (invalidOperationMsg, b)

/-- Translation of `withVariables` (src/dsl/utils.ts lines 51-55): wholesale
replacement, no validation. -/
def withVariables (b : GraphQLInteraction) (vs : List (String × Value)) :
    GraphQLInteraction :=
  { b with vars := vs }

/-- Translation of `withQuery` (src/dsl/utils.ts lines 77-91): a nil query is
rejected, then the external parser validates the string, then the literal
string is stored.  `none` models null/undefined; note that the empty string is
not nil, so it reaches the parser. -/
def withQuery (b : GraphQLInteraction) (q : Option String) :
    GqlExcept GraphQLInteraction :=
  match q with
  | none => .error (missingQueryMsg, b)
  | some s =>
    match gqlParse s with
    | .error e => .error (invalidQueryMsgHead ++ e, b)
    | .ok _ => .ok { b with query := some s }

/-- The request shape the finalizer derives (src/dsl/utils.ts lines 105-112):
the GraphQL body, the content-type header, the POST method. -/
def derivedRequest (b : GraphQLInteraction) (q : String) : RequestOpts :=
  { body := some (.gql
      { operationName := b.operation
        query := regex { generate := q, matcher := gqlMatcherOf q }
        vars := b.vars })
    headers := some [("content-type", "application/json")]
    method := some "POST" }

/-- Translation of `json` (src/dsl/utils.ts lines 97-116): validates presence
of the query, then of the description, then merges the derived request shape
under the already recorded request (underscore `extend`: existing top-level
fields win) and returns the accumulated state. -/
def json (b : GraphQLInteraction) : GqlExcept InteractionState :=
  match b.query with
  | none => .error (missingQueryMsg, b)
  | some q =>
    match b.state.description with
    | none => .error (missingDescriptionMsg, b)
    | some _ =>
      .ok { b.state with
            request := some (extendReq (derivedRequest b q) b.state.request) }

/-- The request of a finalized record, when finalization succeeded. -/
def finalizedRequest : GqlExcept InteractionState → Option RequestOpts
  | .ok s => s.request
  | .error _ => none

/-- The headers of a finalized record's request. -/
def finalizedHeaders (r : GqlExcept InteractionState) :
    Option (List (String × String)) :=
  match finalizedRequest r with
  | some req => req.headers
  | none => none

/-- The method of a finalized record's request. -/
def finalizedMethod (r : GqlExcept InteractionState) : Option String :=
  match finalizedRequest r with
  | some req => req.method
  | none => none

/-- The GraphQL body of a finalized record's request, when present. -/
def finalizedGqlBody (r : GqlExcept InteractionState) : Option GraphQLBody :=
  match finalizedRequest r with
  | some req =>
    match req.body with
    | some (.gql gb) => some gb
    | _ => none
  | none => none

/-! ## Properties of the matcher derivation -/

lemma wsSubst_run (r P : List Char) (h1 : r ≠ [])
    (h2 : ∀ x ∈ r, isWsChar x = true) (h3 : headNotWsChar P = true) :
    wsSubst (r ++ P) = '\\' :: 's' :: '+' :: wsSubst P := by
  induction r with
  | nil => cases h1 rfl
  | cons x r ih =>
    have hx : isWsChar x = true := h2 x (by simp)
    cases r with
    | nil =>
      cases P with
      | nil => simp [wsSubst, hx]
      | cons d P' =>
        have hd : isWsChar d = false := by simpa [headNotWsChar] using h3
        simp [wsSubst, hx, hd]
    | cons y r' =>
      have hy : isWsChar y = true := h2 y (by simp)
      have step : wsSubst ((x :: y :: r') ++ P) = wsSubst ((y :: r') ++ P) := by
        simp [wsSubst, hx, hy]
      rw [step]
      exact ih (by simp) (fun z hz => h2 z (by simp [hz])) 

lemma flatten_headNotWs (cs : List Chunk) (h1 : wfChunks cs = true)
    (h2 : notWsHead cs = true) : headNotWsChar (flattenChunks cs) = true := by
  cases cs with
  | nil => rfl
  | cons c cs' =>
    cases c with
    | ws r => simp [notWsHead] at h2
    | lit ch =>
      have hch : isWsChar ch = false := by
        simp [wfChunks, Bool.and_eq_true] at h1
        exact h1.1
      simp [flattenChunks, headNotWsChar, hch]

lemma wsSubst_flatten (cs : List Chunk) (h : wfChunks cs = true) :
    wsSubst (flattenChunks cs) = flattenPat cs := by
  induction cs with
  | nil => rfl
  | cons c cs ih =>
    cases c with
    | lit ch =>
      simp only [wfChunks, Bool.and_eq_true, Bool.not_eq_true'] at h
      obtain ⟨h1, h2⟩ := h
      simp [flattenChunks, flattenPat, chunkPat, wsSubst, h1, ih h2]
    | ws r =>
      simp only [wfChunks, Bool.and_eq_true, Bool.not_eq_true',
        List.all_eq_true] at h
      obtain ⟨⟨⟨hne, hall⟩, hhead⟩, hwf⟩ := h
      have hne' : r ≠ [] := by cases r <;> simp_all
      have hall' : ∀ x ∈ r, isWsChar x = true := by
        intro x hx; exact hall x hx
      show wsSubst (r ++ flattenChunks cs) = chunkPat (.ws r) ++ flattenPat cs
      rw [wsSubst_run r _ hne' hall' (flatten_headNotWs cs hwf hhead), ih hwf]
      rfl

lemma hasSlashSP_tail (c : Char) (l : List Char)
    (h : hasSlashSP (c :: l) = false) : hasSlashSP l = false := by
  rw [hasSlashSP.eq_def] at h
  split at h <;> simp_all

lemma hasSlashSP_append (xs ys : List Char)
    (h : hasSlashSP (xs ++ ys) = false) : hasSlashSP ys = false := by
  induction xs with
  | nil => exact h
  | cons x xs ih => exact ih (hasSlashSP_tail _ _ h)

lemma patToks_class (P : List Char) :
    patToks ('\\' :: 's' :: '+' :: P) = .wsClass :: patToks P := rfl

lemma patToks_cons_not_bs (c : Char) (P : List Char) (h : c ≠ '\\') :
    patToks (c :: P) = .lit c :: patToks P := by
  rw [patToks.eq_def]
  split <;> simp_all

lemma patToks_bs_one (c : Char) (P : List Char) (h : c ≠ 's') :
    patToks ('\\' :: c :: P) = .lit '\\' :: patToks (c :: P) := by
  rw [patToks.eq_def]
  split
  all_goals simp_all
  all_goals (rename_i heq; exact heq.1.symm)

lemma patToks_bs_s_one (c : Char) (P : List Char) (h : c ≠ '+') :
    patToks ('\\' :: 's' :: c :: P) = .lit '\\' :: patToks ('s' :: c :: P) := by
  rw [patToks.eq_def]
  split
  all_goals simp_all
  all_goals (rename_i heq; exact heq.1.symm)

lemma patToks_single (c : Char) : patToks [c] = [.lit c] := by
  rw [patToks.eq_def]
  split
  all_goals simp_all [patToks]

lemma patToks_flattenPat :
    ∀ (cs : List Chunk), hasSlashSP (flattenChunks cs) = false →
      patToks (flattenPat cs) = cs.map chunkTok
  | [], _ => rfl
  | .ws r :: cs, h => by
    have ih := patToks_flattenPat cs (hasSlashSP_append r _ h)
    show patToks ('\\' :: 's' :: '+' :: flattenPat cs) = .wsClass :: cs.map chunkTok
    rw [patToks_class, ih]
  | [.lit c], h => patToks_single c
  | .lit c :: .ws r :: cs, h => by
    have ih := patToks_flattenPat (.ws r :: cs) (hasSlashSP_tail _ _ h)
    show patToks (c :: '\\' :: 's' :: '+' :: flattenPat cs) =
      .lit c :: .wsClass :: cs.map chunkTok
    by_cases hc : c = '\\'
    · subst hc
      rw [patToks_bs_one '\\' _ (by decide), patToks_class,
        patToks_flattenPat cs (hasSlashSP_append r _ (hasSlashSP_tail _ _ h))]
    · rw [patToks_cons_not_bs c _ hc]
      exact congrArg _ ih
  | .lit c :: .lit d :: cs, h => by
    have ihtail := patToks_flattenPat (.lit d :: cs) (hasSlashSP_tail _ _ h)
    show patToks (c :: d :: flattenPat cs) = .lit c :: .lit d :: cs.map chunkTok
    by_cases hc : c = '\\'
    · subst hc
      by_cases hd : d = 's'
      · subst hd
        cases cs with
        | nil => rfl
        | cons ck cs₃ =>
          cases ck with
          | ws r =>
            have ihcs := patToks_flattenPat (.ws r :: cs₃)
              (hasSlashSP_tail _ _ (hasSlashSP_tail _ _ h))
            show patToks ('\\' :: 's' :: '\\' :: 's' :: '+' :: flattenPat cs₃) =
              .lit '\\' :: .lit 's' :: .wsClass :: cs₃.map chunkTok
            rw [patToks_bs_s_one '\\' _ (by decide),
              patToks_cons_not_bs 's' _ (by decide)]
            exact congrArg _ (congrArg _ ihcs)
          | lit e =>
            by_cases he : e = '+'
            · subst he
              exact Bool.noConfusion (show (true : Bool) = false from h)
            · have ihcs := patToks_flattenPat (.lit e :: cs₃)
                (hasSlashSP_tail _ _ (hasSlashSP_tail _ _ h))
              show patToks ('\\' :: 's' :: e :: flattenPat cs₃) =
                .lit '\\' :: .lit 's' :: .lit e :: cs₃.map chunkTok
              rw [patToks_bs_s_one e _ he, patToks_cons_not_bs 's' _ (by decide)]
              exact congrArg _ (congrArg _ ihcs)
      · rw [patToks_bs_one d _ hd]
        exact congrArg _ ihtail
    · rw [patToks_cons_not_bs c _ hc]
      exact congrArg _ ihtail

lemma patAccepts_wsClass (ts : List PatTok) (r rest : List Char) (h1 : r ≠ [])
    (h2 : ∀ x ∈ r, isWsChar x = true) (h3 : patAccepts ts rest = true) :
    patAccepts (.wsClass :: ts) (r ++ rest) = true := by
  induction r with
  | nil => cases h1 rfl
  | cons x r ih =>
    have hx : isWsChar x = true := h2 x (by simp)
    cases r with
    | nil => simp [patAccepts, hx, h3]
    | cons y r' =>
      have hrec : patAccepts (.wsClass :: ts) ((y :: r') ++ rest) = true :=
        ih (by simp) (fun z hz => h2 z (by simp [hz]))
      have hstep : patAccepts (.wsClass :: ts) (x :: ((y :: r') ++ rest)) =
          (isWsChar x && (patAccepts ts ((y :: r') ++ rest) ||
            patAccepts (.wsClass :: ts) ((y :: r') ++ rest))) := rfl
      show patAccepts (.wsClass :: ts) (x :: ((y :: r') ++ rest)) = true
      rw [hstep, hx, hrec]
      simp

lemma accepts_of_chunkRel (cs : List Chunk) :
    ∀ (cs' : List Chunk), chunkRel cs cs' = true →
      patAccepts (cs.map chunkTok) (flattenChunks cs') = true := by
  induction cs with
  | nil =>
    intro cs' h
    cases cs' with
    | nil => rfl
    | cons c cs' => cases c <;> simp [chunkRel] at h
  | cons c cs ih =>
    intro cs' h
    cases c with
    | lit ch =>
      cases cs' with
      | nil => simp [chunkRel] at h
      | cons c' cs'' =>
        cases c' with
        | lit d =>
          simp only [chunkRel, Bool.and_eq_true, beq_iff_eq] at h
          obtain ⟨rfl, hrel⟩ := h
          show patAccepts (.lit ch :: cs.map chunkTok) (ch :: flattenChunks cs'') = true
          simp [patAccepts, ih _ hrel]
        | ws r => simp [chunkRel] at h
    | ws r =>
      cases cs' with
      | nil => simp [chunkRel] at h
      | cons c' cs'' =>
        cases c' with
        | lit d => simp [chunkRel] at h
        | ws r' =>
          simp only [chunkRel, Bool.and_eq_true, Bool.not_eq_true',
            List.all_eq_true] at h
          obtain ⟨⟨hne, hall⟩, hrel⟩ := h
          have hne' : r' ≠ [] := by cases r' <;> simp_all
          show patAccepts (.wsClass :: cs.map chunkTok) (r' ++ flattenChunks cs'') = true
          exact patAccepts_wsClass _ _ _ hne' (fun z hz => hall z hz) (ih _ hrel)

lemma matcher_accepts (cs cs' : List Chunk) (hwf : wfChunks cs = true)
    (hns : hasSlashSP (flattenChunks cs) = false)
    (hrel : chunkRel cs cs' = true) :
    patAccepts (patToks (wsSubst (flattenChunks cs))) (flattenChunks cs') = true := by
  rw [wsSubst_flatten cs hwf, patToks_flattenPat cs hns]
  exact accepts_of_chunkRel cs cs' hrel

lemma flattenChunks_chunksOf (l : List Char) : flattenChunks (chunksOf l) = l := by
  induction l with
  | nil => rfl
  | cons c l ih =>
    simp only [chunksOf]
    by_cases hc : isWsChar c
    · rw [if_pos hc]
      rcases hcs : chunksOf l with _ | ⟨ck, cs⟩
      · rw [hcs] at ih
        show flattenChunks (Chunk.ws [c] :: []) = c :: l
        simp only [flattenChunks] at ih ⊢
        simp [← ih]
      · cases ck with
        | ws r =>
          rw [hcs] at ih
          show flattenChunks (Chunk.ws (c :: r) :: cs) = c :: l
          simp only [flattenChunks] at ih ⊢
          simp [← ih]
        | lit d =>
          rw [hcs] at ih
          show flattenChunks (Chunk.ws [c] :: Chunk.lit d :: cs) = c :: l
          simp only [flattenChunks] at ih ⊢
          simp [← ih]
    · rw [if_neg hc]
      simp [flattenChunks, ih]

lemma wfChunks_chunksOf (l : List Char) : wfChunks (chunksOf l) = true := by
  induction l with
  | nil => rfl
  | cons c l ih =>
    simp only [chunksOf]
    by_cases hc : isWsChar c
    · rw [if_pos hc]
      rcases hcs : chunksOf l with _ | ⟨ck, cs⟩
      · show wfChunks (Chunk.ws [c] :: []) = true
        simp [wfChunks, notWsHead, hc]
      · cases ck with
        | ws r =>
          rw [hcs] at ih
          show wfChunks (Chunk.ws (c :: r) :: cs) = true
          simp only [wfChunks, Bool.and_eq_true] at ih
          obtain ⟨⟨⟨hne, hall⟩, hhead⟩, hwf⟩ := ih
          simp [wfChunks, hc, hall, hhead, hwf]
        | lit d =>
          rw [hcs] at ih
          show wfChunks (Chunk.ws [c] :: Chunk.lit d :: cs) = true
          simp only [wfChunks, Bool.and_eq_true, Bool.not_eq_true'] at ih
          obtain ⟨hd, hwf⟩ := ih
          simp [wfChunks, notWsHead, hc, hd, hwf]
    · rw [if_neg hc]
      simp only [Bool.not_eq_true] at hc
      simp [wfChunks, hc, ih]

/-! ## The claims -/

/-- Claim C8: a GraphQL builder on which `uponReceiving` was never called fails at
`json()` with the missing-description error, even when the query and the
provider state are both set. -/
theorem claim_C8 (b : GraphQLInteraction) (q st : String)
    (hq : b.query = some q) (_hst : b.state.providerState = some st)
    (hd : b.state.description = none) :
    json b = .error (missingDescriptionMsg, b) := by
  simp [json, hq, hd]

/-- Witness for C8 at a concrete builder with query and provider state set. -/
theorem claim_C8_witness :
    json { state := { providerState := some "i have a list of projects" },
           query := some "\x7b a \x7d" } =
      .error (missingDescriptionMsg,
        { state := { providerState := some "i have a list of projects" },
          query := some "\x7b a \x7d" }) :=
  claim_C8 _ "\x7b a \x7d" "i have a list of projects" rfl rfl rfl

/-- Claim C7: when the parser rejects the query string, `withQuery` itself throws
the invalid-query error, carrying the parser's failure message, before any
finalization. -/
theorem claim_C7 (b : GraphQLInteraction) (q m : String)
    (hp : gqlParse q = .error m) :
    withQuery b (some q) = .error (invalidQueryMsgHead ++ m, b) := by
  simp [withQuery, hp]

/-- Witness for C7 at the malformed query of the spec. -/
theorem claim_C7_witness :
    gqlParse "\x7b invalid" = .error "Syntax Error: Expected Name, found <EOF>." ∧
    withQuery initGraphQL (some "\x7b invalid") =
      .error (invalidQueryMsgHead ++ "Syntax Error: Expected Name, found <EOF>.",
        initGraphQL) :=
  ⟨rfl, claim_C7 initGraphQL _ _ rfl⟩

/-- Claim C9: whenever `withOperation` or `withQuery` throws, the builder state
carried out of the failing call is exactly the state it had before the call —
every throw in the source precedes the assignment. -/
theorem claim_C9 (b : GraphQLInteraction) (op q : Option String) (m : String)
    (post : GraphQLInteraction) :
    (withOperation b op = .error (m, post) → post = b) ∧
    (withQuery b q = .error (m, post) → post = b) := by
  constructor
  · intro h
    cases op with
    | none =>
      simp only [withOperation, Except.error.injEq, Prod.mk.injEq] at h
      exact h.2.symm
    | some s =>
      simp only [withOperation] at h
      split at h
      · cases h
      · simp only [Except.error.injEq, Prod.mk.injEq] at h
        exact h.2.symm
  · intro h
    cases q with
    | none =>
      simp only [withQuery, Except.error.injEq, Prod.mk.injEq] at h
      exact h.2.symm
    | some s =>
      simp only [withQuery] at h
      cases hps : gqlParse s with
      | error e =>
        rw [hps] at h
        simp only [Except.error.injEq, Prod.mk.injEq] at h
        exact h.2.symm
      | ok u =>
        rw [hps] at h
        cases h

/-- Witness for C9: a rejected operation value carries out the untouched
builder. -/
theorem claim_C9_witness :
    withOperation initGraphQL (some "subscription") =
      .error (invalidOperationMsg, initGraphQL) ∧ initGraphQL = initGraphQL :=
  ⟨rfl, (claim_C9 initGraphQL (some "subscription") none invalidOperationMsg
    initGraphQL).1 rfl⟩

/-- Claim C6: `withOperation` accepts exactly `query` and `mutation`, storing the
value (last write wins) so that the finalized body's `operationName` is that
exact value; every other input — absent or unrecognized — is rejected with
the error whose message names the valid operation set. -/
theorem claim_C6 (b : GraphQLInteraction) (op : Option String) :
    (∀ v, op = some v → (v = "query" ∨ v = "mutation") →
      withOperation b op = .ok { b with operation := some v }) ∧
    ((∀ v, op = some v → v ≠ "query" ∧ v ≠ "mutation") →
      withOperation b op = .error (invalidOperationMsg, b) ∧
      ∃ u v w, invalidOperationMsg = u ++ "query" ++ v ++ "mutation" ++ w) ∧
    (∀ v q d, b.operation = some v → b.query = some q →
      b.state.description = some d → b.state.request = none →
      finalizedGqlBody (json b) =
        some { operationName := some v,
               query := { generate := q, matcher := gqlMatcherOf q },
               vars := b.vars }) := by
  refine ⟨?_, ?_, ?_⟩
  · rintro v rfl hv
    rcases hv with rfl | rfl <;> rfl
  · intro hrej
    constructor
    · cases op with
      | none => rfl
      | some s =>
        obtain ⟨h1, h2⟩ := hrej s rfl
        simp [withOperation, h1, h2]
    · exact ⟨"You must provide a valid HTTP method: ", ", ", ".", rfl⟩
  · intro v q d ho hq hd hr
    simp [json, hq, hd, finalizedGqlBody, finalizedRequest, extendReq,
      derivedRequest, regex, hr, ho]

/-- Witness for C6: `mutation` accepted and reflected, `subscription`
rejected. -/
theorem claim_C6_witness :
    withOperation initGraphQL (some "mutation") =
      .ok { initGraphQL with operation := some "mutation" } ∧
    withOperation initGraphQL (some "subscription") =
      .error (invalidOperationMsg, initGraphQL) ∧
    finalizedGqlBody (json { state := { description := some "d" },
                             operation := some "mutation",
                             query := some "\x7b a \x7d" }) =
      some { operationName := some "mutation",
             query := { generate := "\x7b a \x7d",
                        matcher := gqlMatcherOf "\x7b a \x7d" },
             vars := [] } :=
  ⟨(claim_C6 initGraphQL (some "mutation")).1 "mutation" rfl (Or.inr rfl),
   ((claim_C6 initGraphQL (some "subscription")).2.1
     (fun v hv => by cases hv; exact ⟨by decide, by decide⟩)).1,
   (claim_C6 { state := { description := some "d" },
               operation := some "mutation",
               query := some "\x7b a \x7d" } none).2.2
     "mutation" "\x7b a \x7d" "d" rfl rfl rfl rfl⟩

/-- Claim C3 as stated is refuted on the empty string: `withQuery("")` is not nil,
reaches the parser, and the error raised for it is the invalid-query error,
not the missing-query error. -/
theorem claim_C3_counterexample :
    withQuery initGraphQL (some "") =
      .error (invalidQueryMsgHead ++ "Syntax Error: Unexpected <EOF>.",
        initGraphQL) ∧
    invalidQueryMsgHead ++ "Syntax Error: Unexpected <EOF>." ≠ missingQueryMsg :=
  ⟨rfl, by decide⟩

/-- Claim C3 amended: `withQuery(null)` throws the missing-query error at the call;
`withQuery("")` throws the invalid-query error at the call (an empty document
is a parse error) and stores nothing; and a builder whose query was never
stored fails at `json()` with the missing-query error, whatever else is set. -/
theorem claim_C3 (b : GraphQLInteraction) :
    withQuery b none = .error (missingQueryMsg, b) ∧
    (∀ m, gqlParse "" = .error m →
      withQuery b (some "") = .error (invalidQueryMsgHead ++ m, b)) ∧
    (b.query = none → json b = .error (missingQueryMsg, b)) := by
  refine ⟨rfl, ?_, ?_⟩
  · intro m hm
    simp [withQuery, hm]
  · intro h
    simp [json, h]

/-- Witness for C3 at a builder with every other field set. -/
theorem claim_C3_witness :
    json { state := { description := some "desc",
                      providerState := some "st",
                      response := some { status := some 200 } },
           operation := some "query",
           vars := [("a", Value.num 1)] } =
      .error (missingQueryMsg,
        { state := { description := some "desc",
                     providerState := some "st",
                     response := some { status := some 200 } },
          operation := some "query",
          vars := [("a", Value.num 1)] }) :=
  (claim_C3 _).2.2 rfl

/-- Claim C1 as stated is refuted: after `withRequest` set a headers object, the
finalized headers are that object wholesale — underscore `extend` merges only
top-level properties — so the derived `content-type` default is absent. -/
theorem claim_C1_counterexample :
    (withQuery (withRequest (uponReceiving initGraphQL "desc")
        { headers := some [("X-Custom", "1")] })
        (some "\x7b a \x7d")).map (fun b => finalizedHeaders (json b)) =
      .ok (some [("X-Custom", "1")]) ∧
    List.lookup "content-type" [("X-Custom", "1")] = none :=
  ⟨rfl, rfl⟩

/-- Claim C1 amended: the merge is shallow and per top-level field — when the
caller's `withRequest` recorded a headers object the finalized headers are
exactly that object (the derived `content-type` default is not merged in);
when it recorded none they are exactly the derived default; and the method is
`POST` unless the caller set one, in which case the caller's method wins. -/
theorem claim_C1 (b : GraphQLInteraction) (q d : String) (r : RequestOpts)
    (hq : b.query = some q) (hd : b.state.description = some d)
    (hr : b.state.request = some r) :
    ∃ mr, json b = .ok { b.state with request := some mr } ∧
      mr.headers = (r.headers <|> some [("content-type", "application/json")]) ∧
      mr.method = (r.method <|> some "POST") := by
  refine ⟨extendReq (derivedRequest b q) (some r), ?_, rfl, rfl⟩
  simp [json, hq, hd, hr]

/-- Witness for C1 at the spec's scenario: only a custom header was set. -/
theorem claim_C1_witness :
    ∃ mr,
      json { state := { description := some "desc",
                        request := some { headers := some [("X-Custom", "1")] } },
             query := some "\x7b a \x7d" } =
        .ok { description := some "desc",
              request := some mr } ∧
      mr.headers = (some [("X-Custom", "1")] <|>
        some [("content-type", "application/json")]) ∧
      mr.method = ((none : Option String) <|> some "POST") :=
  claim_C1 _ "\x7b a \x7d" "desc" { headers := some [("X-Custom", "1")] }
    rfl rfl rfl

/-- Claim C10: a successful `json()` changes only the request — the description,
the provider state and the response come out exactly as stored, and the
request is exactly the merge of the derived shape under the stored one. -/
theorem claim_C10 (b : GraphQLInteraction) (s : InteractionState)
    (h : json b = .ok s) :
    s.description = b.state.description ∧
    s.providerState = b.state.providerState ∧
    s.response = b.state.response ∧
    ∃ q, b.query = some q ∧
      s.request = some (extendReq (derivedRequest b q) b.state.request) := by
  cases hq : b.query with
  | none => rw [json, hq] at h; cases h
  | some q =>
    cases hd : b.state.description with
    | none => rw [json, hq, hd] at h; cases h
    | some d =>
      rw [json, hq, hd] at h
      injection h with h
      subst h
      exact ⟨hd, rfl, rfl, q, rfl, rfl⟩

/-- Witness for C10 at a builder with description, state and response set. -/
theorem claim_C10_witness :
    ∃ s, json { state := { description := some "d",
                           providerState := some "st",
                           response := some { status := some 200 } },
                query := some "\x7b a \x7d" } = .ok s ∧
      s.description = some "d" ∧
      s.providerState = some "st" ∧
      s.response = some { status := some 200 } ∧
      ∃ q, s.request = some (extendReq (derivedRequest
        { state := { description := some "d",
                     providerState := some "st",
                     response := some { status := some 200 } },
          query := some "\x7b a \x7d" } q) none) := by
  have h := claim_C10 { state := { description := some "d",
                                   providerState := some "st",
                                   response := some { status := some 200 } },
                        query := some "\x7b a \x7d" } _ rfl
  obtain ⟨q, _, hreq⟩ := h.2.2.2
  exact ⟨_, rfl, h.1, h.2.1, h.2.2.1, q, hreq⟩

/-- Claim C4: for every stored query, the finalized body's query descriptor has
`generate` equal to the original unmodified string and `matcher` equal to the
string with every maximal whitespace run replaced by the one-or-more
whitespace class and every other character unchanged — expressed through the
run decomposition `cs` of the query. -/
theorem claim_C4 (b : GraphQLInteraction) (q d : String) (cs : List Chunk)
    (hq : b.query = some q) (hd : b.state.description = some d)
    (hr : b.state.request = none)
    (hcs : q.data = flattenChunks cs) (hwf : wfChunks cs = true) :
    finalizedGqlBody (json b) =
      some { operationName := b.operation,
             query := { generate := q, matcher := ⟨flattenPat cs⟩ },
             vars := b.vars } := by
  have hm : gqlMatcherOf q = ⟨flattenPat cs⟩ := by
    unfold gqlMatcherOf
    rw [hcs, wsSubst_flatten cs hwf]
  simp [json, hq, hd, hr, finalizedGqlBody, finalizedRequest, extendReq,
    derivedRequest, regex, hm]

/-- Witness for C4 at a concrete query and its run decomposition. -/
theorem claim_C4_witness :
    finalizedGqlBody (json { state := { description := some "d" },
                             query := some "\x7b a \x7d" }) =
      some { operationName := none,
             query := { generate := "\x7b a \x7d",
                        matcher := ⟨flattenPat [.lit '\x7b', .ws [' '], .lit 'a',
                          .ws [' '], .lit '\x7d']⟩ },
             vars := [] } :=
  claim_C4 _ "\x7b a \x7d" "d"
    [.lit '\x7b', .ws [' '], .lit 'a', .ws [' '], .lit '\x7d']
    rfl rfl rfl rfl rfl

/-- Claim C2 as stated is refuted: deleting a whitespace run is one of the edits the
claim allows, yet the derived matcher requires at least one whitespace
character wherever the original query had whitespace.  The full pipeline on
the spec's own query yields a matcher that rejects the variant obtained by
deleting the first whitespace run. -/
theorem claim_C2_counterexample :
    (withQuery (uponReceiving initGraphQL "d")
        (some "\x7b Category(id:7) \x7b id \x7d \x7d")).map (fun b =>
      (finalizedGqlBody (json b)).map (fun gb =>
        patAccepts (patToks gb.query.matcher.data)
          "\x7bCategory(id:7) \x7b id \x7d \x7d".data)) =
      .ok (some false) := rfl

/-- Claim C2 amended: for a query that does not contain the literal
three-character sequence backslash, s, plus, the derived matcher accepts every
whitespace-replacement variant — every string obtained by replacing each
maximal whitespace run of the query by an arbitrary nonempty whitespace run,
with no run inserted at a new position and none deleted. -/
theorem claim_C2 (b : GraphQLInteraction) (Q d : String) (cs' : List Chunk)
    (hq : b.query = some Q) (hd : b.state.description = some d)
    (hr : b.state.request = none)
    (hns : hasSlashSP Q.data = false)
    (hrel : chunkRel (chunksOf Q.data) cs' = true) :
    ∃ mr, finalizedGqlBody (json b) =
        some { operationName := b.operation, query := mr, vars := b.vars } ∧
      mr.generate = Q ∧
      patAccepts (patToks mr.matcher.data) (flattenChunks cs') = true := by
  refine ⟨{ generate := Q, matcher := gqlMatcherOf Q }, ?_, rfl, ?_⟩
  · simp [json, hq, hd, hr, finalizedGqlBody, finalizedRequest, extendReq,
      derivedRequest, regex]
  · have h1 : (gqlMatcherOf Q).data = wsSubst (flattenChunks (chunksOf Q.data)) := by
      rw [flattenChunks_chunksOf]
      rfl
    rw [h1]
    refine matcher_accepts _ _ (wfChunks_chunksOf _) ?_ hrel
    rw [flattenChunks_chunksOf]
    exact hns

/-- Witness for C2 at the spec's query and its newline variant. -/
theorem claim_C2_witness :
    ∃ mr, finalizedGqlBody
        (json { state := { description := some "d" },
                query := some "\x7b Category(id:7) \x7b id \x7d \x7d" }) =
        some { operationName := none, query := mr, vars := [] } ∧
      mr.generate = "\x7b Category(id:7) \x7b id \x7d \x7d" ∧
      patAccepts (patToks mr.matcher.data)
        (flattenChunks (chunksOf "\x7b Category(id:7) \x7b\n  id\n\x7d \x7d".data)) = true :=
  claim_C2 _ "\x7b Category(id:7) \x7b id \x7d \x7d" "d"
    (chunksOf "\x7b Category(id:7) \x7b\n  id\n\x7d \x7d".data)
    rfl rfl rfl rfl (by decide)

/-- Claim C5: the end-to-end chain of the spec — description, provider state, the
projects query, empty variables, finalize — succeeds and yields a record with
method POST, the content-type header, and a body whose query descriptor
generates the literal input and whose pattern accepts every
whitespace-replacement variant of it, alongside the null operation name and
the stored variables. -/
theorem claim_C5 (cs' : List Chunk)
    (hrel : chunkRel
      (chunksOf "\x7b Category(id:7) \x7b id name \x7d \x7d".data) cs' = true) :
    ∃ b, withQuery (given (uponReceiving initGraphQL "a request for projects")
        "i have a list of projects")
        (some "\x7b Category(id:7) \x7b id name \x7d \x7d") = .ok b ∧
      finalizedMethod (json (withVariables b [])) = some "POST" ∧
      finalizedHeaders (json (withVariables b [])) =
        some [("content-type", "application/json")] ∧
      ∃ gb, finalizedGqlBody (json (withVariables b [])) = some gb ∧
        gb.query.generate = "\x7b Category(id:7) \x7b id name \x7d \x7d" ∧
        gb.operationName = none ∧
        gb.vars = [] ∧
        patAccepts (patToks gb.query.matcher.data) (flattenChunks cs') = true := by
  refine ⟨_, rfl, rfl, rfl, _, rfl, rfl, rfl, rfl, ?_⟩
  have h1 : (gqlMatcherOf "\x7b Category(id:7) \x7b id name \x7d \x7d").data =
      wsSubst (flattenChunks
        (chunksOf "\x7b Category(id:7) \x7b id name \x7d \x7d".data)) := by
    rw [flattenChunks_chunksOf]
    rfl
  show patAccepts (patToks
    (gqlMatcherOf "\x7b Category(id:7) \x7b id name \x7d \x7d").data)
    (flattenChunks cs') = true
  rw [h1]
  refine matcher_accepts _ _ (wfChunks_chunksOf _) ?_ hrel
  rw [flattenChunks_chunksOf]
  rfl

/-- Witness for C5 at a concrete whitespace variant of the projects query. -/
theorem claim_C5_witness :
    ∃ b, withQuery (given (uponReceiving initGraphQL "a request for projects")
        "i have a list of projects")
        (some "\x7b Category(id:7) \x7b id name \x7d \x7d") = .ok b ∧
      finalizedMethod (json (withVariables b [])) = some "POST" ∧
      finalizedHeaders (json (withVariables b [])) =
        some [("content-type", "application/json")] ∧
      ∃ gb, finalizedGqlBody (json (withVariables b [])) = some gb ∧
        gb.query.generate = "\x7b Category(id:7) \x7b id name \x7d \x7d" ∧
        gb.operationName = none ∧
        gb.vars = [] ∧
        patAccepts (patToks gb.query.matcher.data)
          (flattenChunks (chunksOf
            "\x7b\nCategory(id:7)\t\x7b id  name \x7d\n\x7d".data)) = true :=
  claim_C5 (chunksOf "\x7b\nCategory(id:7)\t\x7b id  name \x7d\n\x7d".data)
    (by decide)

end Pact
